import Mathlib

/-!
Verification of the Track client instrumentation agent (src/dist/index.esm.js).

This file shallowly embeds the core of the agent — the function-wrapping
protocol, the bounded event log, the dedup/throttle gate, the console size
cap, the aggregation entry point `onError`, and the transmitter's
self-disabling channel — as executable Lean definitions, and proves the
frozen claims about them.

Modelling conventions:
* JS reference semantics, where a claim depends on it, is made explicit by
  storing values behind `Nat` addresses into an explicit heap list; pure
  data is embedded directly.
* Machine time is an explicit `Nat` millisecond parameter.
* Asynchronous completions (the XHR `onreadystatechange` callback that
  feeds the transmitter's status check) are folded into the call that
  registered them, passing the eventual transport outcome as a parameter.
* `uuid()` keys are modelled by a fresh counter: the only property the
  code relies on is freshness of keys.
-/

namespace TrackClient

/-! ### Substring search (JS `String.prototype.indexOf(sub) !== -1`) -/

/-- `startsWithL s pat` : does list `s` start with `pat`? -/
def startsWithL : List Char → List Char → Bool
  | _, [] => true
  | [], _ :: _ => false
  | a :: as, b :: bs => a == b && startsWithL as bs

/-- `containsL s pat` : does `pat` occur as a contiguous sublist of `s`?
This is the search `indexOf` performs. -/
def containsL : List Char → List Char → Bool
  | [], pat => startsWithL [] pat
  | s@(_ :: rest), pat => startsWithL s pat || containsL rest pat

/-- JS `-1 !== s.indexOf(sub)`. -/
def strContains (s sub : String) : Bool :=
  containsL s.data sub.data

/-! ### Error values (`CanonicalError`)

The fields `wrapError` reads and writes: `message`, `description`, `file`,
`line`, `column`, `stack`, `innerError`.  `line`/`lineNumber` (resp.
`column`/`columnNumber`) alternatives are merged into a single field. -/

structure ErrBase where
  message : String
  description : Option String
  file : Option String
  line : Option Int
  column : Option Int
  stack : Option String
deriving DecidableEq

inductive JsError where
  | mk (base : ErrBase) (innerError : Option JsError)

def JsError.base : JsError → ErrBase
  | .mk b _ => b

def JsError.innerError : JsError → Option JsError
  | .mk _ i => i

def JsError.message (e : JsError) : String := e.base.message

def JsError.stack (e : JsError) : Option String := e.base.stack

/-- `c.wrapError` (src/dist/index.esm.js:812-823): if the thrown value
already carries an `innerError` link it is returned unchanged; otherwise a
fresh error is built whose message/description carry the
`"Track Caught: "` prefix, whose `file`/`line`/`column`/`stack` are copied
from the original, and whose `innerError` is the original.  (In JS a
missing `description` concatenates as the literal string `"undefined"`;
the source's fallback `b.message || b` for an empty message is not
modelled — messages here are taken as given.) -/
def wrapError (e : JsError) : JsError :=
  match e with
  | .mk b (some i) => .mk b (some i)
  | .mk b none =>
      .mk
        { message := "Track Caught: " ++ b.message
          description := some ("Track Caught: " ++ (b.description.getD "undefined"))
          file := b.file
          line := b.line
          column := b.column
          stack := b.stack }
        (some (.mk b none))

/-! ### Function wrapper: invocation behaviour (src/dist/index.esm.js:20-27)

The wrapper body `b` runs the original with the caller's receiver and
arguments; on success it returns the original's result; on a throw it
first emits one report through `onError('catch', err, bind-metadata)` and
then throws `wrapError(err)`.  The input `x : α` abstracts the pair
(receiver, argument list); thrown values are modelled as error-shaped. -/

structure CatchReport where
  entry : String
  raw : JsError
  bindTime : Option Nat
  bindStack : Option String

/-- One invocation of the wrapper produced by `wrap`, returning the
result (or rethrown error) together with the reports emitted during the
call. -/
def invokeWrapped {α β : Type} (f : α → Except JsError β)
    (bindTime : Option Nat) (bindStack : Option String) (x : α) :
    Except JsError β × List CatchReport :=
  match f x with
  | .ok v => (.ok v, [])
  | .error err => (.error (wrapError err), [⟨"catch", err, bindTime, bindStack⟩])

/-! ### Function wrapper: identity and caching (src/dist/index.esm.js:28-45)

Function objects live in a heap (`List FnObj`); `JsVal` is either a
function address or a non-callable value.  `trackjs` is the own property
`__trackjs__` (wrapper marker), `trackjsState` is `__trackjs_state__`
(the cached wrapper's address), `behavior` stands for the callable's
semantics (copied to the wrapper by the `for (h in a)` loop together with
the prototype). -/

structure FnObj where
  behavior : Nat
  trackjs : Bool
  trackjsState : Option Nat
deriving DecidableEq

inductive JsVal where
  | fn (addr : Nat)
  | nonfn (v : Nat)
deriving DecidableEq

/-- `wrap` (src/dist/index.esm.js:20-46): non-callables are returned
unchanged; a value already marked `__trackjs__` is returned unchanged; a
value with a cached `__trackjs_state__` wrapper returns that wrapper; an
unreachable address plays the hostile-getter role (inspection fails, the
original is returned).  Otherwise a fresh wrapper object is allocated at
the end of the heap, marked `__trackjs__`, and cached on the original. -/
def wrapF (h : List FnObj) (v : JsVal) : List FnObj × JsVal :=
  match v with
  | .nonfn x => (h, .nonfn x)
  | .fn a =>
      match h[a]? with
      | none => (h, .fn a)
      | some o =>
          if o.trackjs then (h, .fn a)
          else
            match o.trackjsState with
            | some w => (h, .fn w)
            | none =>
                let w := h.length
                let wrapper : FnObj :=
                  { behavior := o.behavior, trackjs := true, trackjsState := none }
                ((h.set a { o with trackjsState := some w }) ++ [wrapper], .fn w)

/-- Heap well-formedness: every cached `__trackjs_state__` slot points at
an object that carries the `__trackjs__` marker.  Every heap reachable by
the engine satisfies this: the slot is only ever written by `wrap`, which
stores the freshly marked wrapper there. -/
def WFHeap (h : List FnObj) : Prop :=
  ∀ (a w : Nat) (o : FnObj), h[a]? = some o → o.trackjsState = some w →
    ∃ ow : FnObj, h[w]? = some ow ∧ ow.trackjs = true

/-! ### Bounded event log (src/dist/index.esm.js:304-334) -/

structure LogEntry (α : Type) where
  key : Nat
  category : String
  value : α
deriving DecidableEq

structure Log (α : Type) where
  appender : List (LogEntry α)
  maxLength : Nat
  nextKey : Nat
deriving DecidableEq

/-- The constructor `x(a)`: empty appender, `maxLength = 30`. -/
def Log.init (α : Type) : Log α := ⟨[], 30, 0⟩

/-- `truncate`: when over capacity, keep only the newest `maxLength`
entries (`appender.slice(appender.length - maxLength)`). -/
def Log.truncate {α : Type} (s : Log α) : Log α :=
  if s.maxLength < s.appender.length then
    { s with appender := s.appender.drop (s.appender.length - s.maxLength) }
  else s

/-- `add(category, value)`: push an entry under a fresh key, truncate,
return the key. -/
def Log.add {α : Type} (s : Log α) (cat : String) (v : α) : Log α × Nat :=
  let d := s.nextKey
  (Log.truncate
      { s with
        appender := s.appender ++ [⟨d, cat, v⟩]
        nextKey := d + 1 },
    d)

/-- `all(category)`: the values of the surviving entries of one category,
in appender (insertion) order, pushed into a fresh array. -/
def Log.all {α : Type} (s : Log α) (cat : String) : List α :=
  (s.appender.filter (fun e => e.category == cat)).map (fun e => e.value)

/-- `get(category, key)`: first entry matching category and key, `false`
(here `none`) when absent. -/
def Log.get {α : Type} (s : Log α) (cat : String) (key : Nat) : Option α :=
  (s.appender.find? (fun e => e.category == cat && e.key == key)).map
    (fun e => e.value)

/-- `clear()`: `appender.length = 0`. -/
def Log.clear {α : Type} (s : Log α) : Log α := { s with appender := [] }

/-- Last `n` elements of a list. -/
def takeLast {γ : Type} (n : Nat) (l : List γ) : List γ :=
  l.drop (l.length - n)

/-- The full insertion history an op list would produce, with the fresh
keys `k, k+1, …` the log would assign. -/
def historyFrom {α : Type} (k : Nat) : List (String × α) → List (LogEntry α)
  | [] => []
  | (cat, v) :: rest => ⟨k, cat, v⟩ :: historyFrom (k + 1) rest

/-- Run a sequence of `add` calls. -/
def runAdds {α : Type} (s : Log α) : List (String × α) → Log α
  | [] => s
  | (cat, v) :: rest => runAdds (Log.add s cat v).1 rest

/-! ### Throttle (src/dist/index.esm.js:615-622)

`throttle(payload)` returns whether the attempt is rejected; the third
component is the `payload.throttled` annotation written when a new window
opens. -/

structure ThrottleStats where
  attemptCount : Nat
  throttledCount : Nat
  lastAttempt : Nat
deriving DecidableEq

def throttle (s : ThrottleStats) (now : Nat) : ThrottleStats × Bool × Option Nat :=
  let ac := s.attemptCount + 1
  if now ≤ s.lastAttempt + 1000 then
    if 10 < ac then
      ({ attemptCount := ac, throttledCount := s.throttledCount + 1, lastAttempt := now },
        true, none)
    else
      ({ attemptCount := ac, throttledCount := s.throttledCount, lastAttempt := now },
        false, none)
  else
    ({ attemptCount := 0, throttledCount := 0, lastAttempt := now },
      false, some s.throttledCount)

/-- Run a sequence of throttle attempts at the given times, collecting
each attempt's (rejected?, annotation) outcome. -/
def runThrottle (s : ThrottleStats) : List Nat → ThrottleStats × List (Bool × Option Nat)
  | [] => (s, [])
  | now :: rest =>
      let r := throttle s now
      let rr := runThrottle r.1 rest
      (rr.1, (r.2.1, r.2.2) :: rr.2)

/-! ### Transmitter (src/dist/index.esm.js:544-622)

The constructor `t(util, config)` starts with `disabled = false` unless
`JSON.stringify` is missing.  `sendError` is a no-op when disabled or
throttled; otherwise the request is issued and the transport outcome —
`some status` for a completed response, `none` for a transport-level
failure — decides whether the channel disables itself (browser success
set: status 200 or 202, src/dist/index.esm.js:597). -/

structure Transmitter where
  disabled : Bool
  throttleStats : ThrottleStats
deriving DecidableEq

def Transmitter.init (hasJSONStringify : Bool) (now : Nat) : Transmitter :=
  { disabled := !hasJSONStringify
    throttleStats := { attemptCount := 0, throttledCount := 0, lastAttempt := now } }

def successStatus (status : Nat) : Bool := status == 200 || status == 202

/-- `sendError(payload, token)` with the eventual transport outcome folded
in; returns the new state and whether a transmission was issued. -/
def sendError (t : Transmitter) (now : Nat) (outcome : Option Nat) : Transmitter × Bool :=
  if t.disabled then (t, false)
  else
    let r := throttle t.throttleStats now
    if r.2.1 then ({ t with throttleStats := r.1 }, false)
    else
      let ok : Bool :=
        match outcome with
        | some status => successStatus status
        | none => false
      ({ disabled := !ok, throttleStats := r.1 }, true)

/-! ### Console size cap (src/dist/index.esm.js:795-800, 1127-1136) -/

/-- `c.truncate(a, b)`: `a` unchanged when short enough, otherwise the
first `b` characters followed by `"...{overflow}"`. -/
def jsTruncate (a : String) (b : Nat) : String :=
  if a.length ≤ b then a
  else a.take b ++ "...\x7b" ++ toString (a.length - b) ++ "\x7d"

/-- Total length of the console messages attached to a payload (the inner
helper `a()` of the cap loop). -/
def consoleSize (msgs : List String) : Nat :=
  (msgs.map String.length).sum

/-- The cap loop: `for (b = 0; a() && b < console.length; ) { truncate
console[b].message to 1000; b++ }` — starting from index `b`. -/
def capConsoleGo (msgs : List String) (b : Nat) : List String :=
  if h : 80000 ≤ consoleSize msgs ∧ b < msgs.length then
    capConsoleGo (msgs.set b (jsTruncate (msgs.getD b "") 1000)) (b + 1)
  else msgs
termination_by msgs.length - b
decreasing_by simp only [List.length_set]; omega

def capConsole (msgs : List String) : List String := capConsoleGo msgs 0

/-- The state of the cap loop after the first `k` messages (oldest first)
have been truncated. -/
def truncFirst (k : Nat) (msgs : List String) : List String :=
  (msgs.take k).map (fun m => jsTruncate m 1000) ++ msgs.drop k

/-! ### Aggregation entry point `onError` (src/dist/index.esm.js:1077-1148)

Modelled over an installed, enabled, supported agent receiving
error-shaped values.  `lastFingerprint` is the closure variable `a`,
`scriptFlag` the closure variable `b`; the log carries the console
category (values = serialized console messages).  The user hook is the
configured `onError(payload, error)` callback, modelled as total (its
throwing branch, which schedules a forced asynchronous retry, is outside
this synchronous model).  `StepOut` records how often the hook was called
and the payload handed to the transmitter, if any. -/

structure Payload where
  entry : String
  message : String
  stack : Option String
  console : List String
deriving DecidableEq

structure GateCfg where
  dedupe : Bool
  hook : Payload → JsError → Bool

structure GateState where
  lastFingerprint : Option String
  scriptFlag : Bool
  log : Log String

structure StepOut where
  hookCalls : Nat
  sent : Option Payload
deriving DecidableEq

/-- `(h.message + h.stack).substr(0, 1e4)`; an absent stack concatenates
as the literal string `"undefined"`.  `substr(0, n)` keeps the first `n`
characters, written here as a `take` on the character list. -/
def fingerprintOf (message : String) (stack : Option String) : String :=
  String.mk ((message ++ stack.getD "undefined").data.take 10000)

/-- The payload assembled by `defaultsDeep` at src/dist/index.esm.js:1088
(restricted to the fields the claims mention; `console` is the watcher's
`report()`, i.e. the log's `"c"` snapshot). -/
def assemblePayload (st : GateState) (entry : String) (e : JsError) : Payload :=
  { entry := entry
    message := e.message
    stack := e.stack
    console := st.log.all "c" }

/-- One call of the aggregation entry point. -/
def onErrorStep (cfg : GateCfg) (st : GateState) (entry : String) (e : JsError)
    (force : Bool) : GateState × StepOut :=
  if strContains e.message "Track Caught" = true then (st, ⟨0, none⟩)
  else if st.scriptFlag = true ∧ strContains e.message "Script error" = true then
    ({ st with scriptFlag := false }, ⟨0, none⟩)
  else
    let h := assemblePayload st entry e
    let hookCalls : Nat := if force then 0 else 1
    if force = false ∧ cfg.hook h e = false then (st, ⟨hookCalls, none⟩)
    else
      let k := fingerprintOf h.message h.stack
      if cfg.dedupe = true ∧ some k = st.lastFingerprint then (st, ⟨hookCalls, none⟩)
      else
        let st1 := if cfg.dedupe then { st with lastFingerprint := some k } else st
        ({ st1 with log := Log.clear st1.log, scriptFlag := true },
          ⟨hookCalls, some { h with console := capConsole h.console }⟩)

def GateState.init : GateState :=
  { lastFingerprint := none, scriptFlag := false, log := Log.init String }

/-- Run a sequence of `onError` calls `(entry, error, force)`. -/
def runGate (cfg : GateCfg) (st : GateState) :
    List (String × JsError × Bool) → GateState × List StepOut
  | [] => (st, [])
  | c :: rest =>
      let r := onErrorStep cfg st c.1 c.2.1 c.2.2
      let rr := runGate cfg r.1 rest
      (rr.1, r.2 :: rr.2)

/-- Number of payloads handed to the transmitter over a run. -/
def sentCount (outs : List StepOut) : Nat :=
  (outs.filterMap (fun o => o.sent)).length

/-! ### Snapshot sharing (src/dist/index.esm.js:310-333, 436-450, 521-532)

Network entry values are mutable objects: the log stores references.
`NetSys` makes the references explicit: the log's values are addresses
into `heap`.  `add` allocates a fresh object, `complete` is the
request-completion path (`log.get` the reference, then assign fields in
place — `heap.set`); a completion whose entry was evicted is silently
dropped. -/

structure NetSys where
  log : Log Nat
  heap : List Nat

inductive NetOp where
  | add (cat : String) (v : Nat)
  | clearOp
  | complete (cat : String) (key : Nat) (v : Nat)

def NetSys.step (s : NetSys) : NetOp → NetSys
  | .add cat v =>
      { log := (Log.add s.log cat s.heap.length).1, heap := s.heap ++ [v] }
  | .clearOp => { s with log := Log.clear s.log }
  | .complete cat key v =>
      match Log.get s.log cat key with
      | some addr => { s with heap := s.heap.set addr v }
      | none => s

def runSys (s : NetSys) : List NetOp → NetSys
  | [] => s
  | op :: rest => runSys (s.step op) rest

/-- What a holder of a snapshot (a list of value references) observes. -/
def viewSnapshot (heap : List Nat) (snap : List Nat) : List (Option Nat) :=
  snap.map (fun a => heap[a]?)

/-- All value references stored in the log are live heap addresses. -/
def NetSys.WF (s : NetSys) : Prop :=
  ∀ e ∈ s.log.appender, e.value < s.heap.length

def NetOp.isComplete : NetOp → Bool
  | .complete _ _ _ => true
  | _ => false

/-! ### Concrete instances used by the witness theorems -/

/-- A plain thrown error. -/
def eBoom : JsError := .mk ⟨"boom", none, none, none, none, some "stk"⟩ none

/-- A second, distinct error. -/
def eOther : JsError := .mk ⟨"other", none, none, none, none, some "stk2"⟩ none

/-- The default configuration: `dedupe: true`, user hook admitting
everything (`defaults.onError` returns `true`). -/
def cfgDefault : GateCfg := ⟨true, fun _ _ => true⟩

/-- A configuration whose user hook vetoes every payload. -/
def cfgVeto : GateCfg := ⟨true, fun _ _ => false⟩

/-- A one-element function heap: a fresh unwrapped callable at address 0. -/
def heap0 : List FnObj := [⟨7, false, none⟩]

/-- A network-log system holding one started entry (key 0, address 0)
whose object currently is `5`. -/
def sys0 : NetSys := { log := (Log.add (Log.init Nat) "n" 0).1, heap := [5] }

/-! ## Theorems -/

@[simp] theorem JsError.base_mk (b : ErrBase) (i : Option JsError) :
    (JsError.mk b i).base = b := rfl

@[simp] theorem JsError.innerError_mk (b : ErrBase) (i : Option JsError) :
    (JsError.mk b i).innerError = i := rfl

@[simp] theorem JsError.message_mk (b : ErrBase) (i : Option JsError) :
    (JsError.mk b i).message = b.message := rfl

@[simp] theorem JsError.stack_mk (b : ErrBase) (i : Option JsError) :
    (JsError.mk b i).stack = b.stack := rfl

theorem startsWithL_append (pat p rest : List Char) (h : startsWithL p pat = true) :
    startsWithL (p ++ rest) pat = true := by
  induction pat generalizing p with
  | nil => simp [startsWithL]
  | cons b bs ih =>
      cases p with
      | nil => simp [startsWithL] at h
      | cons a as =>
          simp only [startsWithL, Bool.and_eq_true] at h
          simp only [List.cons_append, startsWithL, Bool.and_eq_true]
          exact ⟨h.1, ih as h.2⟩

theorem containsL_of_startsWithL (s pat : List Char) (h : startsWithL s pat = true) :
    containsL s pat = true := by
  cases s with
  | nil => simpa [containsL] using h
  | cons a rest => simp [containsL, h]

/-- Any message of the form `"Track Caught: " ++ m` contains the
substring `"Track Caught"`. -/
theorem strContains_track_caught (m : String) :
    strContains ("Track Caught: " ++ m) "Track Caught" = true := by
  unfold strContains
  rw [String.data_append]
  exact containsL_of_startsWithL _ _
    (startsWithL_append _ _ _ (by decide))

/-- C1.  For every throwing function `f`, one invocation of the wrapper
built by `wrap(f)` (src/dist/index.esm.js:20-27) rethrows
`wrapError` of the original throw — so the exception is never swallowed —
and emits exactly one report, with entry kind `"catch"` and the bind
metadata, carrying the original error.  For a not-yet-wrapped original
the rethrown error keeps the original's stack, carries the original as
`innerError`, and derives its message by the `"Track Caught: "` prefix;
an already-wrapped original is rethrown unchanged
(src/dist/index.esm.js:812-823). -/
theorem wrap_exception_transparency {α β : Type} (f : α → Except JsError β)
    (bindTime : Option Nat) (bindStack : Option String) (x : α) (e : JsError)
    (hf : f x = .error e) :
    invokeWrapped f bindTime bindStack x =
      (.error (wrapError e), [⟨"catch", e, bindTime, bindStack⟩]) ∧
    (e.innerError = none →
      (wrapError e).message = "Track Caught: " ++ e.message ∧
      (wrapError e).stack = e.stack ∧
      (wrapError e).innerError = some e) ∧
    (e.innerError ≠ none → wrapError e = e) := by
  refine ⟨by simp [invokeWrapped, hf], ?_, ?_⟩
  · cases e with
    | mk b i =>
        cases i with
        | none => intro _; exact ⟨rfl, rfl, rfl⟩
        | some i0 => intro hn; simp at hn
  · cases e with
    | mk b i =>
        cases i with
        | none => intro hn; simp at hn
        | some i0 => intro _; rfl

/-- Witness for C1 at a concrete throwing function. -/
theorem wrap_exception_transparency_witness :
    invokeWrapped (fun _ : Unit => (.error eBoom : Except JsError Nat))
        none none () =
      (.error (wrapError eBoom), [⟨"catch", eBoom, none, none⟩]) ∧
    (eBoom.innerError = none →
      (wrapError eBoom).message = "Track Caught: " ++ eBoom.message ∧
      (wrapError eBoom).stack = eBoom.stack ∧
      (wrapError eBoom).innerError = some eBoom) ∧
    (eBoom.innerError ≠ none → wrapError eBoom = eBoom) :=
  wrap_exception_transparency (fun _ : Unit => (.error eBoom : Except JsError Nat))
    none none () eBoom rfl

/-- C10.  Any error whose message contains the substring
`"Track Caught"` is dropped by the aggregation entry point before any
payload is assembled, any hook is called, or anything is handed to the
transmitter, and the gate state is left untouched
(src/dist/index.esm.js:1084); and the errors freshly built by the
engine's own `wrapError` always carry that substring in their message
(src/dist/index.esm.js:815), which is what stops an exception
re-reported through nested wrappers from producing further reports —
and equally drops any user error whose message happens to contain it. -/
theorem onError_track_caught_guard :
    (∀ (cfg : GateCfg) (st : GateState) (entry : String) (e : JsError)
        (force : Bool),
      strContains e.message "Track Caught" = true →
      onErrorStep cfg st entry e force = (st, ⟨0, none⟩)) ∧
    (∀ e : JsError, e.innerError = none →
      strContains (wrapError e).message "Track Caught" = true) := by
  constructor
  · intro cfg st entry e force h
    simp [onErrorStep, h]
  · intro e h
    cases e with
    | mk b i =>
        cases i with
        | none => exact strContains_track_caught b.message
        | some i0 => simp at h

/-- Witness for C10: a concrete `"Track Caught"`-carrying error is
dropped, and the concrete wrapped error carries the substring. -/
theorem onError_track_caught_guard_witness :
    onErrorStep cfgDefault GateState.init "window"
        (.mk ⟨"Track Caught: boom", none, none, none, none, none⟩ none) false =
      (GateState.init, ⟨0, none⟩) ∧
    strContains (wrapError eBoom).message "Track Caught" = true :=
  ⟨onError_track_caught_guard.1 cfgDefault GateState.init "window"
      (.mk ⟨"Track Caught: boom", none, none, none, none, none⟩ none) false
      (by decide),
    onError_track_caught_guard.2 eBoom rfl⟩

/-- C4.  The throttle (src/dist/index.esm.js:615-622) keeps a rolling
1-second window: an attempt at most 1000ms after the previous one stays
in the window and increments `attemptCount`; once that counter has
reached 10, every further in-window attempt is rejected and counted in
`throttledCount`; an attempt past the window's end resets both counters
and annotates the payload opening the new window with the previously
throttled count.  Consequently 11 admissions within one rolling second
from a fresh state yield 10 passes and one rejection, and the next
window's report carries `throttled = 1`. -/
theorem throttle_rolling_window :
    (∀ (s : ThrottleStats) (now : Nat), now ≤ s.lastAttempt + 1000 →
      10 ≤ s.attemptCount →
      throttle s now =
        (⟨s.attemptCount + 1, s.throttledCount + 1, now⟩, true, none)) ∧
    (∀ (s : ThrottleStats) (now : Nat), now ≤ s.lastAttempt + 1000 →
      s.attemptCount < 10 →
      throttle s now =
        (⟨s.attemptCount + 1, s.throttledCount, now⟩, false, none)) ∧
    (∀ (s : ThrottleStats) (now : Nat), s.lastAttempt + 1000 < now →
      throttle s now = (⟨0, 0, now⟩, false, some s.throttledCount)) ∧
    (runThrottle ⟨0, 0, 0⟩ (List.replicate 11 0 ++ [1001])).2 =
      List.replicate 10 (false, none) ++ [(true, none), (false, some 1)] := by
  refine ⟨?_, ?_, ?_, by decide⟩
  · intro s now h1 h2
    simp only [throttle]
    rw [if_pos h1, if_pos (by omega)]
  · intro s now h1 h2
    simp only [throttle]
    rw [if_pos h1, if_neg (by omega)]
  · intro s now h1
    simp only [throttle]
    rw [if_neg (by omega)]

/-- Witness for C4 at concrete states and times. -/
theorem throttle_rolling_window_witness :
    throttle ⟨10, 0, 0⟩ 500 = (⟨11, 1, 500⟩, true, none) ∧
    throttle ⟨0, 0, 0⟩ 500 = (⟨1, 0, 500⟩, false, none) ∧
    throttle ⟨5, 3, 0⟩ 2000 = (⟨0, 0, 2000⟩, false, some 3) :=
  ⟨throttle_rolling_window.1 ⟨10, 0, 0⟩ 500 (by decide) (by decide),
    throttle_rolling_window.2.1 ⟨0, 0, 0⟩ 500 (by decide) (by decide),
    throttle_rolling_window.2.2.1 ⟨5, 3, 0⟩ 2000 (by decide)⟩

/-- C6.  The error channel (src/dist/index.esm.js:544-613) starts enabled
exactly when the host has `JSON.stringify`; when disabled, `sendError` is
a complete no-op (the state is unchanged and nothing is transmitted), so
the `enabled → disabled` transition is one-way for the process lifetime;
and an enabled, unthrottled send whose transport outcome is a failure or
a response status outside the success set `{200, 202}` transitions the
channel to disabled. -/
theorem transmitter_channel_disable :
    (∀ now : Nat, (Transmitter.init true now).disabled = false) ∧
    (∀ now : Nat, (Transmitter.init false now).disabled = true) ∧
    (∀ (t : Transmitter) (now : Nat) (outcome : Option Nat),
      t.disabled = true → sendError t now outcome = (t, false)) ∧
    (∀ (t : Transmitter) (now : Nat) (outcome : Option Nat),
      t.disabled = true → (sendError t now outcome).1.disabled = true) ∧
    (∀ (t : Transmitter) (now : Nat), t.disabled = false →
      (throttle t.throttleStats now).2.1 = false →
      (sendError t now none).1.disabled = true ∧ (sendError t now none).2 = true) ∧
    (∀ (t : Transmitter) (now : Nat) (status : Nat), t.disabled = false →
      (throttle t.throttleStats now).2.1 = false →
      successStatus status = false →
      (sendError t now (some status)).1.disabled = true ∧
        (sendError t now (some status)).2 = true) := by
  refine ⟨fun _ => rfl, fun _ => rfl, ?_, ?_, ?_, ?_⟩
  · intro t now outcome h
    simp [sendError, h]
  · intro t now outcome h
    simp [sendError, h]
  · intro t now h1 h2
    simp [sendError, h1, h2]
  · intro t now status h1 h2 h3
    simp [sendError, h1, h2, h3]

/-- Witness for C6: a concrete enabled transmitter is disabled by a 500
response and is a no-op ever after. -/
theorem transmitter_channel_disable_witness :
    sendError (Transmitter.init true 0) 0 (some 500) =
      ({ disabled := true, throttleStats := ⟨1, 0, 0⟩ }, true) ∧
    (sendError (Transmitter.init true 0) 0 (some 500)).1.disabled = true ∧
    sendError (sendError (Transmitter.init true 0) 0 (some 500)).1 3000 (some 200) =
      ((sendError (Transmitter.init true 0) 0 (some 500)).1, false) := by
  refine ⟨by decide, ?_, ?_⟩
  · exact (transmitter_channel_disable.2.2.2.2.2 (Transmitter.init true 0) 0 500
      rfl (by decide) (by decide)).1
  · exact transmitter_channel_disable.2.2.1 _ 3000 (some 200) (by decide)

@[simp] theorem assemblePayload_message (st : GateState) (entry : String)
    (e : JsError) : (assemblePayload st entry e).message = e.message := rfl

@[simp] theorem assemblePayload_stack (st : GateState) (entry : String)
    (e : JsError) : (assemblePayload st entry e).stack = e.stack := rfl

/-- On an ordinary message (neither guard substring fires) the entry
point runs the hook/dedupe/send path. -/
theorem onErrorStep_normal (cfg : GateCfg) (st : GateState) (entry : String)
    (e : JsError) (force : Bool)
    (h1 : strContains e.message "Track Caught" = false)
    (h2 : ¬(st.scriptFlag = true ∧ strContains e.message "Script error" = true)) :
    onErrorStep cfg st entry e force =
      (if force = false ∧ cfg.hook (assemblePayload st entry e) e = false then
        (st, ⟨if force then 0 else 1, none⟩)
      else if cfg.dedupe = true ∧
          some (fingerprintOf e.message e.stack) = st.lastFingerprint then
        (st, ⟨if force then 0 else 1, none⟩)
      else
        ({ lastFingerprint :=
              if cfg.dedupe then some (fingerprintOf e.message e.stack)
              else st.lastFingerprint
           scriptFlag := true
           log := Log.clear st.log },
          ⟨if force then 0 else 1,
            some { entry := entry, message := e.message, stack := e.stack,
                   console := capConsole (st.log.all "c") }⟩)) := by
  obtain ⟨lfp, sf, lg⟩ := st
  unfold onErrorStep
  rw [if_neg (by simp [h1]), if_neg h2]
  by_cases hv : force = false ∧
      cfg.hook (assemblePayload ⟨lfp, sf, lg⟩ entry e) e = false
  · rw [if_pos hv, if_pos hv]
  · rw [if_neg hv, if_neg hv]
    by_cases hd : cfg.dedupe = true ∧
        some (fingerprintOf e.message e.stack) = lfp
    · rw [if_pos, if_pos hd]
      exact hd
    · rw [if_neg, if_neg hd]
      · by_cases hde : cfg.dedupe
        · simp only [if_pos hde, Log.clear]
          rfl
        · simp only [if_neg hde, Log.clear]
          rfl
      · exact hd

/-- C5.  With `dedupe` configured (src/dist/index.esm.js:1122-1126): the
gate fingerprints the first 10000 characters of `message + stack`; a
candidate (admitted by the user hook) whose fingerprint equals the
previous admitted one is rejected with nothing handed to the transmitter
and the remembered fingerprint unchanged; a differing fingerprint is
admitted and becomes the single remembered fingerprint; hence two
consecutive identical errors hand exactly one payload to the
transmitter. -/
theorem dedupe_consecutive_suppression :
    (∀ (cfg : GateCfg) (st : GateState) (entry : String) (e : JsError),
      cfg.dedupe = true →
      strContains e.message "Track Caught" = false →
      ¬(st.scriptFlag = true ∧ strContains e.message "Script error" = true) →
      cfg.hook (assemblePayload st entry e) e = true →
      ((some (fingerprintOf e.message e.stack) = st.lastFingerprint →
          onErrorStep cfg st entry e false = (st, ⟨1, none⟩)) ∧
        (some (fingerprintOf e.message e.stack) ≠ st.lastFingerprint →
          (onErrorStep cfg st entry e false).1.lastFingerprint =
            some (fingerprintOf e.message e.stack) ∧
          (onErrorStep cfg st entry e false).2.sent =
            some { entry := entry, message := e.message, stack := e.stack,
                   console := capConsole (st.log.all "c") }))) ∧
    (∀ (entry : String) (e : JsError),
      strContains e.message "Track Caught" = false →
      strContains e.message "Script error" = false →
      sentCount (runGate cfgDefault GateState.init
        [(entry, e, false), (entry, e, false)]).2 = 1) := by
  constructor
  · intro cfg st entry e hd h1 h2 hh
    rw [onErrorStep_normal cfg st entry e false h1 h2]
    rw [if_neg (by simp [hh])]
    constructor
    · intro heq
      rw [if_pos ⟨hd, heq⟩]
      rfl
    · intro hne
      rw [if_neg (by intro hc; exact hne hc.2)]
      simp [hd]
  · intro entry e h1 h2
    have h2g : ∀ st : GateState,
        ¬(st.scriptFlag = true ∧ strContains e.message "Script error" = true) := by
      intro st hc
      rw [h2] at hc
      exact Bool.false_ne_true hc.2
    have e1 : onErrorStep cfgDefault GateState.init entry e false =
        ({ lastFingerprint := some (fingerprintOf e.message e.stack),
            scriptFlag := true, log := Log.clear (Log.init String) },
          ⟨1, some { entry := entry, message := e.message, stack := e.stack,
                     console := capConsole ((Log.init String).all "c") }⟩) := by
      rw [onErrorStep_normal cfgDefault GateState.init entry e false h1
        (h2g GateState.init)]
      rw [if_neg (by simp [cfgDefault]), if_neg (by simp [GateState.init])]
      rfl
    have e2 : onErrorStep cfgDefault
        { lastFingerprint := some (fingerprintOf e.message e.stack),
          scriptFlag := true, log := Log.clear (Log.init String) }
        entry e false =
        ({ lastFingerprint := some (fingerprintOf e.message e.stack),
            scriptFlag := true, log := Log.clear (Log.init String) },
          ⟨1, none⟩) := by
      rw [onErrorStep_normal cfgDefault _ entry e false h1 (h2g _)]
      rw [if_neg (by simp [cfgDefault]), if_pos ⟨rfl, rfl⟩]
      rfl
    simp only [runGate, e1, e2]
    rfl

/-- Witness for C5: the dedupe-hit branch, the admit branch, and the
two-identical-errors run at concrete inputs. -/
theorem dedupe_consecutive_suppression_witness :
    onErrorStep cfgDefault
        { lastFingerprint := some (fingerprintOf eBoom.message eBoom.stack),
          scriptFlag := false, log := Log.init String }
        "window" eBoom false =
      ({ lastFingerprint := some (fingerprintOf eBoom.message eBoom.stack),
          scriptFlag := false, log := Log.init String }, ⟨1, none⟩) ∧
    sentCount (runGate cfgDefault GateState.init
      [("window", eBoom, false), ("window", eBoom, false)]).2 = 1 :=
  ⟨(dedupe_consecutive_suppression.1 cfgDefault
      { lastFingerprint := some (fingerprintOf eBoom.message eBoom.stack),
        scriptFlag := false, log := Log.init String }
      "window" eBoom rfl (by decide) (by simp) rfl).1 rfl,
    dedupe_consecutive_suppression.2 "window" eBoom (by decide) (by decide)⟩

/-- C7 counterexample.  The claim places the user hook after dedup
("post-dedup, pre-send"); in the code (src/dist/index.esm.js:1112-1126)
the hook runs BEFORE the dedup check, so a candidate that dedup rejects
has still seen one hook invocation.  The statement below — a
dedup-rejected candidate sees no hook invocation — is therefore false:
taking the previous fingerprint equal to the candidate's, the step calls
the hook once. -/
theorem hook_post_dedup_counterexample :
    ¬(∀ (cfg : GateCfg) (st : GateState) (entry : String) (e : JsError),
        cfg.dedupe = true →
        some (fingerprintOf e.message e.stack) = st.lastFingerprint →
        (onErrorStep cfg st entry e false).2.hookCalls = 0) := by
  intro hclaim
  have h := hclaim cfgDefault
    { lastFingerprint := some (fingerprintOf eBoom.message eBoom.stack),
      scriptFlag := false, log := Log.init String }
    "window" eBoom rfl rfl
  have h1 : (onErrorStep cfgDefault
      { lastFingerprint := some (fingerprintOf eBoom.message eBoom.stack),
        scriptFlag := false, log := Log.init String }
      "window" eBoom false).2.hookCalls = 1 := rfl
  rw [h1] at h
  exact Nat.one_ne_zero h

/-- C7 (amended).  The user hook is invoked exactly once per candidate
report that passes the message guards, before the dedup check and before
sending (pre-dedup, pre-send): it runs whatever the dedup outcome will
be, a `false` return suppresses the transmission of that payload and
leaves the gate state (including the remembered fingerprint) unchanged,
and a payload is only handed to the transmitter if the hook admitted
it. -/
theorem hook_pre_dedup_veto (cfg : GateCfg) (st : GateState) (entry : String)
    (e : JsError)
    (h1 : strContains e.message "Track Caught" = false)
    (h2 : ¬(st.scriptFlag = true ∧ strContains e.message "Script error" = true)) :
    (onErrorStep cfg st entry e false).2.hookCalls = 1 ∧
    (cfg.hook (assemblePayload st entry e) e = false →
      onErrorStep cfg st entry e false = (st, ⟨1, none⟩)) ∧
    (∀ p, (onErrorStep cfg st entry e false).2.sent = some p →
      cfg.hook (assemblePayload st entry e) e = true) := by
  rw [onErrorStep_normal cfg st entry e false h1 h2]
  by_cases hv : cfg.hook (assemblePayload st entry e) e = false
  · rw [if_pos ⟨rfl, hv⟩]
    refine ⟨rfl, fun _ => rfl, ?_⟩
    intro p hp
    simp at hp
  · rw [if_neg (by simp [hv])]
    refine ⟨?_, fun hc => absurd hc hv, ?_⟩
    · by_cases hd : cfg.dedupe = true ∧
          some (fingerprintOf e.message e.stack) = st.lastFingerprint
      · rw [if_pos hd]
        rfl
      · rw [if_neg hd]
        rfl
    · intro p hp
      exact eq_true_of_ne_false hv

/-- Witness for C7's amended claim: a vetoing hook suppresses the send
of a concrete candidate, which still sees one hook call. -/
theorem hook_pre_dedup_veto_witness :
    (onErrorStep cfgVeto GateState.init "window" eBoom false).2.hookCalls = 1 ∧
    onErrorStep cfgVeto GateState.init "window" eBoom false =
      (GateState.init, ⟨1, none⟩) :=
  ⟨(hook_pre_dedup_veto cfgVeto GateState.init "window" eBoom (by decide)
      (by simp [GateState.init])).1,
    (hook_pre_dedup_veto cfgVeto GateState.init "window" eBoom (by decide)
      (by simp [GateState.init])).2.1 rfl⟩

theorem wrapF_nonfn (h : List FnObj) (x : Nat) :
    wrapF h (.nonfn x) = (h, .nonfn x) := rfl

theorem wrapF_marked (h : List FnObj) (a : Nat) (o : FnObj)
    (ha : h[a]? = some o) (ht : o.trackjs = true) :
    wrapF h (.fn a) = (h, .fn a) := by
  simp [wrapF, ha, ht]

theorem wrapF_cached (h : List FnObj) (a w : Nat) (o : FnObj)
    (ha : h[a]? = some o) (ht : o.trackjs = false)
    (hw : o.trackjsState = some w) :
    wrapF h (.fn a) = (h, .fn w) := by
  simp [wrapF, ha, ht, hw]

theorem wrapF_fresh (h : List FnObj) (a : Nat) (o : FnObj)
    (ha : h[a]? = some o) (ht : o.trackjs = false)
    (hw : o.trackjsState = none) :
    wrapF h (.fn a) =
      ((h.set a { o with trackjsState := some h.length }) ++
        [⟨o.behavior, true, none⟩], .fn h.length) := by
  simp [wrapF, ha, ht, hw]

/-- C2.  Wrapping (src/dist/index.esm.js:20-46) is idempotent and
identity-stable on every well-formed heap: wrapping the value returned
by `wrap` returns it unchanged (with the heap unchanged), wrapping the
same original again returns the same cached wrapper, a non-callable
value is returned unchanged without error, and the wrapper of a
non-throwing callable returns exactly the original's result (with no
report emitted) for every receiver/argument input. -/
theorem wrap_idempotent_identity :
    (∀ (h : List FnObj) (a : Nat), WFHeap h → a < h.length →
      wrapF (wrapF h (.fn a)).1 (wrapF h (.fn a)).2 = wrapF h (.fn a) ∧
      wrapF (wrapF h (.fn a)).1 (.fn a) = wrapF h (.fn a)) ∧
    (∀ (h : List FnObj) (x : Nat), wrapF h (.nonfn x) = (h, .nonfn x)) ∧
    (∀ (α β : Type) (f : α → Except JsError β) (bindTime : Option Nat)
        (bindStack : Option String) (x : α) (v : β),
      f x = .ok v → invokeWrapped f bindTime bindStack x = (.ok v, [])) := by
  refine ⟨?_, fun h x => rfl, ?_⟩
  case refine_2 =>
    intro α β f bindTime bindStack x v hfx
    simp [invokeWrapped, hfx]
  · intro h a hwf hlen
    obtain ⟨o, ho⟩ : ∃ o, h[a]? = some o :=
      ⟨h[a], List.getElem?_eq_getElem hlen⟩
    by_cases ht : o.trackjs = true
    · have hm := wrapF_marked h a o ho ht
      rw [hm]
      exact ⟨hm, hm⟩
    · have htf : o.trackjs = false := by
        revert ht; cases o.trackjs <;> simp
      cases hst : o.trackjsState with
      | some w =>
          have hc := wrapF_cached h a w o ho htf hst
          obtain ⟨ow, how, howt⟩ := hwf a w o ho hst
          rw [hc]
          exact ⟨wrapF_marked h w ow how howt, hc⟩
      | none =>
          have hf := wrapF_fresh h a o ho htf hst
          rw [hf]
          have f1 : ((h.set a { o with trackjsState := some h.length }) ++
              [(⟨o.behavior, true, none⟩ : FnObj)])[h.length]? =
              some ⟨o.behavior, true, none⟩ := by
            have := List.getElem?_concat_length
              (h.set a { o with trackjsState := some h.length })
              (⟨o.behavior, true, none⟩ : FnObj)
            rwa [List.length_set] at this
          have f2 : ((h.set a { o with trackjsState := some h.length }) ++
              [(⟨o.behavior, true, none⟩ : FnObj)])[a]? =
              some { o with trackjsState := some h.length } := by
            rw [List.getElem?_append_left (by simpa using hlen)]
            exact List.getElem?_set_self hlen
          constructor
          · exact wrapF_marked _ h.length ⟨o.behavior, true, none⟩ f1 rfl
          · rw [wrapF_cached _ a h.length { o with trackjsState := some h.length }
              f2 htf rfl]

/-- Witness for C2 on a concrete one-callable heap. -/
theorem wrap_idempotent_identity_witness :
    wrapF (wrapF heap0 (.fn 0)).1 (wrapF heap0 (.fn 0)).2 = wrapF heap0 (.fn 0) ∧
    wrapF (wrapF heap0 (.fn 0)).1 (.fn 0) = wrapF heap0 (.fn 0) ∧
    wrapF heap0 (.nonfn 5) = (heap0, .nonfn 5) ∧
    invokeWrapped (fun _ : Unit => (.ok 42 : Except JsError Nat)) none none () =
      (.ok 42, []) := by
  have hwf : WFHeap heap0 := by
    intro a w o ha hw
    cases a with
    | zero =>
        simp only [heap0, List.getElem?_cons_zero, Option.some.injEq] at ha
        rw [← ha] at hw
        simp at hw
    | succ n =>
        simp [heap0] at ha
  have hid := wrap_idempotent_identity.1 heap0 0 hwf (by decide)
  exact ⟨hid.1, hid.2, wrap_idempotent_identity.2.1 heap0 5,
    wrap_idempotent_identity.2.2 Unit Nat
      (fun _ : Unit => (.ok 42 : Except JsError Nat)) none none () 42 rfl⟩

theorem takeLast_length {γ : Type} (n : Nat) (l : List γ) :
    (takeLast n l).length = min n l.length := by
  simp only [takeLast, List.length_drop]
  omega

theorem takeLast_of_le {γ : Type} (n : Nat) (l : List γ) (h : l.length ≤ n) :
    takeLast n l = l := by
  simp [takeLast, Nat.sub_eq_zero_of_le h]

theorem takeLast_append_left {γ : Type} (n : Nat) (l m : List γ) :
    takeLast n (takeLast n l ++ m) = takeLast n (l ++ m) := by
  by_cases hn : l.length ≤ n
  · rw [takeLast_of_le n l hn]
  · push_neg at hn
    simp only [takeLast]
    rw [List.drop_append_eq_append_drop, List.drop_append_eq_append_drop,
      List.drop_drop]
    congr 1
    · congr 1
      simp only [List.length_append, List.length_drop]
      omega
    · congr 1
      simp only [List.length_append, List.length_drop]
      omega

theorem truncate_fields {α : Type} (s : Log α) (h1 : s.maxLength = 30) :
    (Log.truncate s).appender = takeLast 30 s.appender ∧
    (Log.truncate s).maxLength = 30 ∧
    (Log.truncate s).nextKey = s.nextKey := by
  unfold Log.truncate takeLast
  by_cases hc : s.maxLength < s.appender.length
  · rw [if_pos hc, h1]
    exact ⟨rfl, rfl, rfl⟩
  · rw [if_neg hc]
    refine ⟨?_, h1, rfl⟩
    have h0 : s.appender.length - 30 = 0 := by omega
    rw [h0, List.drop_zero]

theorem add_fields {α : Type} (s : Log α) (cat : String) (v : α)
    (h1 : s.maxLength = 30) :
    (Log.add s cat v).1.appender =
      takeLast 30 (s.appender ++ [⟨s.nextKey, cat, v⟩]) ∧
    (Log.add s cat v).1.maxLength = 30 ∧
    (Log.add s cat v).1.nextKey = s.nextKey + 1 := by
  have ht := truncate_fields
    { s with appender := s.appender ++ [⟨s.nextKey, cat, v⟩], nextKey := s.nextKey + 1 }
    (by simpa using h1)
  exact ⟨ht.1, ht.2.1, ht.2.2⟩

theorem runAdds_characterization {α : Type} :
    ∀ (ops : List (String × α)) (s : Log α), s.maxLength = 30 →
      s.appender.length ≤ 30 →
      (runAdds s ops).appender =
        takeLast 30 (s.appender ++ historyFrom s.nextKey ops) := by
  intro ops
  induction ops with
  | nil =>
      intro s h1 h2
      simp only [runAdds, historyFrom, List.append_nil]
      rw [takeLast_of_le 30 s.appender h2]
  | cons op rest ih =>
      intro s h1 h2
      obtain ⟨cat, v⟩ := op
      simp only [runAdds, historyFrom]
      obtain ⟨ha, hm, hk⟩ := add_fields s cat v h1
      have hlen : (Log.add s cat v).1.appender.length ≤ 30 := by
        rw [ha, takeLast_length]
        omega
      rw [ih (Log.add s cat v).1 hm hlen, ha, hk, takeLast_append_left,
        List.append_assoc, List.singleton_append]

/-- C3.  The event log (src/dist/index.esm.js:304-334) is bounded: after
any sequence of `add(category, value)` calls starting from the
constructor state, the surviving appender is exactly the last 30 entries
of the full insertion history — so at most 30 entries survive across all
categories, eviction drops the globally oldest entries first regardless
of category — and `all(category)` returns the surviving entries of that
category in insertion order.  (`add` is a total function of the state:
overflow is handled by eviction, never by raising.) -/
theorem log_bounded_fifo (α : Type) (ops : List (String × α)) :
    (runAdds (Log.init α) ops).appender = takeLast 30 (historyFrom 0 ops) ∧
    (runAdds (Log.init α) ops).appender.length ≤ 30 ∧
    ∀ cat, (runAdds (Log.init α) ops).all cat =
      ((takeLast 30 (historyFrom 0 ops)).filter
        (fun e => e.category == cat)).map (fun e => e.value) := by
  have h := runAdds_characterization ops (Log.init α) rfl
    (by simp [Log.init])
  have h0 : (runAdds (Log.init α) ops).appender =
      takeLast 30 (historyFrom 0 ops) := by
    simpa [Log.init] using h
  refine ⟨h0, ?_, ?_⟩
  · rw [h0, takeLast_length]
    omega
  · intro cat
    unfold Log.all
    rw [h0]

theorem truncFirst_zero (msgs : List String) : truncFirst 0 msgs = msgs := by
  simp [truncFirst]

theorem truncFirst_length (k : Nat) (msgs : List String) :
    (truncFirst k msgs).length = msgs.length := by
  simp only [truncFirst, List.length_append, List.length_map, List.length_take,
    List.length_drop]
  omega

theorem truncFirst_cons_succ (m : String) (rest : List String) (b : Nat) :
    truncFirst (b + 1) (m :: rest) = jsTruncate m 1000 :: truncFirst b rest := by
  simp [truncFirst]

theorem truncFirst_set_step :
    ∀ (msgs : List String) (b : Nat), b < msgs.length →
      (truncFirst b msgs).set b
          (jsTruncate ((truncFirst b msgs).getD b "") 1000) =
        truncFirst (b + 1) msgs := by
  intro msgs
  induction msgs with
  | nil => intro b hb; simp at hb
  | cons m rest ih =>
      intro b hb
      cases b with
      | zero =>
          rw [truncFirst_zero, truncFirst_cons_succ, truncFirst_zero]
          simp
      | succ b0 =>
          have hb0 : b0 < rest.length := by simpa using hb
          rw [truncFirst_cons_succ, truncFirst_cons_succ]
          simp only [List.set_cons_succ, List.getD_cons_succ]
          rw [ih b0 hb0]

theorem capConsoleGo_spec_aux :
    ∀ (n : Nat) (msgs : List String) (b : Nat), msgs.length - b = n →
      b ≤ msgs.length →
      ∃ k, b ≤ k ∧ k ≤ msgs.length ∧
        capConsoleGo (truncFirst b msgs) b = truncFirst k msgs ∧
        (consoleSize (truncFirst k msgs) < 80000 ∨ k = msgs.length) ∧
        (∀ j, b ≤ j → j < k → 80000 ≤ consoleSize (truncFirst j msgs)) := by
  intro n
  induction n with
  | zero =>
      intro msgs b hn hb
      have hbe : b = msgs.length := by omega
      refine ⟨b, Nat.le_refl b, hb, ?_, Or.inr hbe, by intro j h1 h2; omega⟩
      unfold capConsoleGo
      rw [dif_neg]
      intro hc
      rw [truncFirst_length] at hc
      omega
  | succ n ih =>
      intro msgs b hn hb
      have hblt : b < msgs.length := by omega
      by_cases hcond : 80000 ≤ consoleSize (truncFirst b msgs)
      · have hstep : capConsoleGo (truncFirst b msgs) b =
            capConsoleGo (truncFirst (b + 1) msgs) (b + 1) := by
          conv_lhs => rw [capConsoleGo]
          rw [dif_pos ⟨hcond, by rw [truncFirst_length]; exact hblt⟩,
            truncFirst_set_step msgs b hblt]
        obtain ⟨k, hk1, hk2, hk3, hk4, hk5⟩ := ih msgs (b + 1) (by omega) (by omega)
        refine ⟨k, by omega, hk2, ?_, hk4, ?_⟩
        · rw [hstep, hk3]
        · intro j hj1 hj2
          rcases Nat.eq_or_lt_of_le hj1 with he | hlt
          · rw [← he]
            exact hcond
          · exact hk5 j (by omega) hj2
      · refine ⟨b, Nat.le_refl b, hb, ?_, Or.inl (by omega), by intro j h1 h2; omega⟩
        unfold capConsoleGo
        rw [dif_neg]
        intro hc
        exact hcond hc.1

/-- C8.  At report-assembly time the total length of the console messages
attached to a payload is capped at 80000 (src/dist/index.esm.js:
1127-1136): the cap loop truncates individual messages progressively from
the oldest (index 0) on — the result is always `truncFirst k` for some
prefix length `k`, the loop only ran while the total still reached the
cap, and it stops as soon as the total is under budget (or every entry
has been truncated); a console list already under budget is left
untouched.  The cap is applied to the payload handed to the transmitter
(every sent payload's console is `capConsole` of the log snapshot), not
at normalization time: `add` stores each console value in the log
unchanged. -/
theorem console_cap_at_assembly :
    (∀ msgs : List String, ∃ k, k ≤ msgs.length ∧
      capConsole msgs = truncFirst k msgs ∧
      (consoleSize (truncFirst k msgs) < 80000 ∨ k = msgs.length) ∧
      (∀ j, j < k → 80000 ≤ consoleSize (truncFirst j msgs))) ∧
    (∀ msgs : List String, consoleSize msgs < 80000 → capConsole msgs = msgs) ∧
    (∀ (cfg : GateCfg) (st : GateState) (entry : String) (e : JsError)
        (force : Bool) (p : Payload),
      (onErrorStep cfg st entry e force).2.sent = some p →
      p.console = capConsole (st.log.all "c")) ∧
    (∀ (s : Log String) (cat v : String), s.maxLength = 30 →
      ((Log.add s cat v).1.appender.getLast?).map (fun en => en.value) =
        some v) := by
  refine ⟨?_, ?_, ?_, ?_⟩
  · intro msgs
    obtain ⟨k, hk1, hk2, hk3, hk4, hk5⟩ :=
      capConsoleGo_spec_aux (msgs.length - 0) msgs 0 rfl (Nat.zero_le _)
    refine ⟨k, hk2, ?_, hk4, fun j hj => hk5 j (Nat.zero_le _) hj⟩
    rw [← hk3, truncFirst_zero]
    rfl
  · intro msgs hs
    unfold capConsole capConsoleGo
    rw [dif_neg]
    intro hc
    omega
  · intro cfg st entry e force p hp
    by_cases h1 : strContains e.message "Track Caught" = true
    · simp [onErrorStep, h1] at hp
    · have h1f : strContains e.message "Track Caught" = false := by
        simpa using h1
      by_cases h2 : st.scriptFlag = true ∧ strContains e.message "Script error" = true
      · simp [onErrorStep, h1, h2] at hp
      · rw [onErrorStep_normal cfg st entry e force h1f h2] at hp
        by_cases h3 : force = false ∧ cfg.hook (assemblePayload st entry e) e = false
        · rw [if_pos h3] at hp
          simp at hp
        · rw [if_neg h3] at hp
          by_cases h4 : cfg.dedupe = true ∧
              some (fingerprintOf e.message e.stack) = st.lastFingerprint
          · rw [if_pos h4] at hp
            simp at hp
          · rw [if_neg h4] at hp
            simp only [Option.some.injEq] at hp
            rw [← hp]
  · intro s cat v hmax
    obtain ⟨ha, _, _⟩ := add_fields s cat v hmax
    rw [ha]
    unfold takeLast
    rw [List.drop_append_of_le_length
      (by simp only [List.length_append, List.length_cons, List.length_nil]; omega)]
    rw [List.getLast?_concat]
    rfl

/-- Witness for C8: an under-budget console list is untouched, a sent
payload's console is the capped snapshot, and `add` stores the console
value unchanged. -/
theorem console_cap_at_assembly_witness :
    capConsole ["ab", "cd"] = ["ab", "cd"] ∧
    ({ entry := "window", message := "boom", stack := some "stk",
       console := capConsole ((Log.init String).all "c") } : Payload).console =
      capConsole ((Log.init String).all "c") ∧
    ((Log.add (Log.init String) "c" "hello").1.appender.getLast?).map
        (fun en => en.value) = some "hello" := by
  refine ⟨console_cap_at_assembly.2.1 ["ab", "cd"] (by decide), ?_,
    console_cap_at_assembly.2.2.2 (Log.init String) "c" "hello" rfl⟩
  refine console_cap_at_assembly.2.2.1 cfgDefault GateState.init "window" eBoom
    false _ ?_
  rw [onErrorStep_normal cfgDefault GateState.init "window" eBoom false
    (by decide) (by simp [GateState.init])]
  rw [if_neg (by simp [cfgDefault]), if_neg (by simp [GateState.init])]
  rfl

/-- C9 counterexample.  `all(category)` copies the entry array
(src/dist/index.esm.js:310-315) but pushes the value references
themselves, so an entry completed in place through `get`
(src/dist/index.esm.js:436-450, 521-532) changes what an already-taken
snapshot shows: on the concrete one-entry system `sys0` the snapshot
views `[some 5]` before completion and `[some 7]` after — refuting the
claim that in-place completion of an entry via `get` does not affect an
already-taken snapshot. -/
theorem snapshot_completion_counterexample :
    viewSnapshot (sys0.step (.complete "n" 0 7)).heap (Log.all sys0.log "n") ≠
      viewSnapshot sys0.heap (Log.all sys0.log "n") := by decide

theorem runSys_no_complete_heap :
    ∀ (ops : List NetOp) (s : NetSys), (∀ op ∈ ops, op.isComplete = false) →
      ∃ ext, (runSys s ops).heap = s.heap ++ ext := by
  intro ops
  induction ops with
  | nil =>
      intro s _
      exact ⟨[], by simp [runSys]⟩
  | cons op rest ih =>
      intro s h
      have hrest : ∀ o ∈ rest, o.isComplete = false :=
        fun o ho => h o (List.mem_cons_of_mem _ ho)
      cases op with
      | add cat v =>
          obtain ⟨ext, he⟩ := ih (s.step (.add cat v)) hrest
          refine ⟨v :: ext, ?_⟩
          simp only [runSys]
          rw [he]
          simp [NetSys.step]
      | clearOp =>
          obtain ⟨ext, he⟩ := ih (s.step .clearOp) hrest
          refine ⟨ext, ?_⟩
          simp only [runSys]
          rw [he]
          rfl
      | complete cat key v =>
          exact absurd (h _ (List.mem_cons_self _ _)) (by simp [NetOp.isComplete])

/-- C9 (amended).  `all(category)` returns a copy of the entry-reference
sequence, not a live view of the log: appends, evictions and `clear`
never write the value store, so the view through an already-taken
snapshot is unchanged by any sequence of such operations; but the values
are shared by reference, so in-place completion of an entry via `get`
IS visible through an already-taken snapshot. -/
theorem snapshot_copy_semantics (s : NetSys) (cat : String) (ops : List NetOp)
    (hwf : NetSys.WF s) (hops : ∀ op ∈ ops, op.isComplete = false) :
    viewSnapshot (runSys s ops).heap (Log.all s.log cat) =
      viewSnapshot s.heap (Log.all s.log cat) := by
  obtain ⟨ext, he⟩ := runSys_no_complete_heap ops s hops
  rw [he]
  unfold viewSnapshot
  apply List.map_congr_left
  intro a ha
  have hval : a < s.heap.length := by
    unfold Log.all at ha
    obtain ⟨en, hen, hena⟩ := List.mem_map.mp ha
    exact hena ▸ hwf en (List.mem_filter.mp hen).1
  exact List.getElem?_append_left hval

/-- Witness for C9's amended claim: a concrete snapshot's view survives
an append and a clear. -/
theorem snapshot_copy_semantics_witness :
    viewSnapshot (runSys sys0 [.add "c" 1, .clearOp]).heap
        (Log.all sys0.log "n") =
      viewSnapshot sys0.heap (Log.all sys0.log "n") := by
  have hwf : NetSys.WF sys0 := by
    intro en hen
    have hx : sys0.log.appender = [⟨0, "n", 0⟩] := by decide
    rw [hx] at hen
    simp only [List.mem_singleton] at hen
    rw [hen]
    decide
  exact snapshot_copy_semantics sys0 "n" [.add "c" 1, .clearOp] hwf (by decide)

end TrackClient
